import Mathlib

/-!
Verification of the JobPulse job-ingestion pipeline.

Strings are modelled as `List Char` (`Str`).  Python `str.lower()` and SQLite
`LOWER` agree on ASCII and are modelled by `lowerStr`; SQLite `LIKE` (applied
here only to already-lowercased operands) is modelled by `likeMatch`.
The SQLite `scraped_at` column holds ISO-8601 UTC timestamps of a fixed
width, for which lexicographic (SQL) comparison coincides with chronological
order, so timestamps are modelled as `Nat`.
-/

namespace JobPulse

abbrev Str := List Char

/-- Python whitespace characters relevant to `str.strip()` / `str.split()`. -/
def isWS (c : Char) : Bool :=
  c == ' ' || c == '\t' || c == '\n' || c == '\r' ||
  c == Char.ofNat 11 || c == Char.ofNat 12

/-- ASCII lowercasing of a single character, as both Python `str.lower` and
SQLite `LOWER` do on ASCII letters. -/
def lowerChar (c : Char) : Char :=
  if 65 ≤ c.toNat ∧ c.toNat ≤ 90 then Char.ofNat (c.toNat + 32) else c

def lowerStr (s : Str) : Str := s.map lowerChar

/-- `isPre needle hay`: `needle` begins `hay`. -/
def isPre : Str → Str → Bool
  | [], _ => true
  | _ :: _, [] => false
  | a :: as, b :: bs => a == b && isPre as bs

/-- `containsSub hay needle`: Python's `needle in hay` substring test. -/
def containsSub (hay needle : Str) : Bool :=
  match hay with
  | [] => needle.isEmpty
  | _ :: t => isPre needle hay || containsSub t needle

/-- Python `str.strip()`. -/
def pyStrip (s : Str) : Str :=
  ((s.dropWhile isWS).reverse.dropWhile isWS).reverse

/-- Split at the FIRST occurrence of `sep` (Python `s.split(sep, 1)` when
`sep in s`); `none` when `sep` does not occur. -/
def splitFirst (sep : Str) : Str → Option (Str × Str)
  | [] => if isPre sep [] then some ([], []) else none
  | c :: t =>
    if isPre sep (c :: t) then some ([], (c :: t).drop sep.length)
    else
      match splitFirst sep t with
      | some (a, b) => some (c :: a, b)
      | none => none

/-- Python's `x or d` for an optional string `x` (both `None` and the empty
string fall through to the default). -/
def orElseStr (o : Option Str) (d : Str) : Str :=
  match o with
  | none => d
  | some s => if s.isEmpty then d else s

/-- Accumulator for `pySplitWS` (current word is kept reversed). -/
def wordsAux : Str → Str → List Str
  | [], cur => if cur.isEmpty then [] else [cur.reverse]
  | c :: t, cur =>
    if isWS c then
      if cur.isEmpty then wordsAux t [] else cur.reverse :: wordsAux t []
    else wordsAux t (c :: cur)

/-- Python `str.split()` with no argument: words separated by whitespace runs. -/
def pySplitWS (s : Str) : List Str := wordsAux s []

def joinSep (sep : Str) : List Str → Str
  | [] => []
  | [x] => x
  | x :: y :: xs => x ++ sep ++ joinSep sep (y :: xs)

/-- rozee.py `_clean`: `" ".join(text.split()).strip()` (empty input gives
the empty string). -/
def clean (s : Str) : Str := pyStrip (joinSep [' '] (pySplitWS s))

/-- SQLite `LIKE` pattern matching (`%` = any run, `_` = any one character),
with a fuel argument making the recursion structural; every recursive call
strictly decreases `p.length + t.length`, so `likeMatch` below supplies
enough fuel and the fuel never runs out. -/
def likeMatchF : Nat → Str → Str → Bool
  | 0, _, _ => false
  | _ + 1, [], t => t.isEmpty
  | fuel + 1, p :: ps, [] => if p = '%' then likeMatchF fuel ps [] else false
  | fuel + 1, p :: ps, c :: ts =>
    if p = '%' then likeMatchF fuel ps (c :: ts) || likeMatchF fuel (p :: ps) ts
    else if p = '_' then likeMatchF fuel ps ts
    else p == c && likeMatchF fuel ps ts

/-- SQLite `LIKE`: `likeMatch pat text`; case-sensitive, which is faithful
here because the code lowercases both the pattern and the matched column
before comparing. -/
def likeMatch (p t : Str) : Bool := likeMatchF (p.length + t.length + 1) p t

/-- The pattern `f"%{s}%"` the repository builds for its `LIKE` filters. -/
def likePat (s : Str) : Str := '%' :: s ++ ['%']

/-- rozee.py `_infer_role_type`: intern, else trainee, else junior. -/
def inferRoleRozee (title : Str) : Str :=
  let t := lowerStr title
  if containsSub t "intern".data then "intern".data
  else if containsSub t "trainee".data then "trainee".data
  else "junior".data

/-- The role heuristic inlined identically in remoteok.py, weworkremotely.py
and github_jobs.py: intern, else trainee, else junior, else entry. -/
def inferRoleApi (title : Str) : Str :=
  let lt := lowerStr title
  if containsSub lt "intern".data then "intern".data
  else if containsSub lt "trainee".data then "trainee".data
  else if containsSub lt "junior".data then "junior".data
  else "entry".data

/-- A normalised job record as produced by an adapter (db.py payload fields,
without `scraped_at`, which the store assigns at insert time). -/
structure JobRec where
  title : Str
  company : Str
  location : Str
  source : Str
  role_type : Str
  posted_date_text : Str
  posted_at : Option Str
  apply_url : Str
deriving DecidableEq, Repr

/-- A persisted row of the `jobs` table (db.py `init_db` schema), with the
autoincrement `id` and the store-assigned `scraped_at`. -/
structure Row where
  id : Nat
  title : Str
  company : Str
  location : Str
  source : Str
  role_type : Str
  posted_date_text : Str
  posted_at : Option Str
  apply_url : Str
  scraped_at : Nat
deriving DecidableEq, Repr

/-- The SQLite database state: the `jobs` table in insertion order plus the
next autoincrement id. -/
structure Store where
  nextId : Nat
  rows : List Row
deriving DecidableEq, Repr

def Store.empty : Store := ⟨1, []⟩

/-- Whether some stored row already holds the given `apply_url`
(the UNIQUE(apply_url) constraint's conflict test). -/
def hasUrl (s : Store) (u : Str) : Bool := s.rows.any (fun r => r.apply_url == u)

/-- One `INSERT OR IGNORE` statement of db.py `insert_jobs`: on a conflict on
`apply_url` nothing happens and `cur.rowcount` is 0, otherwise the row is
appended with `scraped_at = now` and `cur.rowcount` is 1. -/
def insertOne (now : Nat) (s : Store) (j : JobRec) : Nat × Store :=
  if hasUrl s j.apply_url then (0, s)
  else
    (1, ⟨s.nextId + 1,
      s.rows ++ [⟨s.nextId, j.title, j.company, j.location, j.source, j.role_type,
        j.posted_date_text, j.posted_at, j.apply_url, now⟩]⟩)

/-- The `for row in payload` loop of db.py `insert_jobs`, accumulating
`inserted += cur.rowcount`. -/
def insertLoop (now : Nat) (s : Store) : List JobRec → Nat × Store
  | [] => (0, s)
  | j :: js =>
    let p1 := insertOne now s j
    let p2 := insertLoop now p1.2 js
    (p1.1 + p2.1, p2.2)

/-- db.py `insert_jobs`: early `return 0` on an empty list, otherwise one
batch timestamp `now` for the whole loop; returns the number of rows actually
inserted together with the updated table. -/
def insert_jobs (s : Store) (now : Nat) (jobs : List JobRec) : Nat × Store :=
  if jobs.isEmpty then (0, s) else insertLoop now s jobs

/-- The row appended by a successful insert of `j` into `s` at time `now`. -/
def newRow (now : Nat) (s : Store) (j : JobRec) : Row :=
  ⟨s.nextId, j.title, j.company, j.location, j.source, j.role_type,
    j.posted_date_text, j.posted_at, j.apply_url, now⟩

/-- Stores reachable from the empty table by `insert_jobs` calls. -/
inductive Reachable : Store → Prop
  | empty : Reachable Store.empty
  | step (s : Store) (t : Nat) (jobs : List JobRec) :
      Reachable s → Reachable (insert_jobs s t jobs).2

/-- The uniqueness invariant: pairwise distinct `apply_url` values. -/
def distinctUrls (s : Store) : Prop :=
  s.rows.Pairwise (fun a b => a.apply_url ≠ b.apply_url)

/-- A sample adapter record used by concrete witnesses. -/
def mkRec (u : Str) : JobRec :=
  ⟨"Python Intern".data, "Example Co".data, "Lahore".data, "rozee".data,
    "intern".data, "Today".data, none, u⟩

/-- The WHERE clause built by repo.py `list_jobs`: every filter is optional
(Python truthiness on the empty string), the text filter is
`LOWER(title) LIKE ? OR LOWER(company) LIKE ?` with pattern
`f"%{q.lower()}%"`, `source` and `role_type` are exact, and `location` is a
coarse bucket (`lahore` / `remote` → `LOWER(location) LIKE '%...%'`, anything
else → no constraint). -/
def rowMatchesList (q source role_type location : Str) (r : Row) : Bool :=
  (q.isEmpty || (likeMatch (likePat (lowerStr q)) (lowerStr r.title) ||
    likeMatch (likePat (lowerStr q)) (lowerStr r.company))) &&
  (source.isEmpty || r.source == source) &&
  (role_type.isEmpty || r.role_type == role_type) &&
  (location.isEmpty ||
    (if lowerStr location == "lahore".data then
      likeMatch (likePat "lahore".data) (lowerStr r.location)
    else if lowerStr location == "remote".data then
      likeMatch (likePat "remote".data) (lowerStr r.location)
    else true))

/-- The WHERE clause of repo.py `count_jobs`, which duplicates the one of
`list_jobs` line for line. -/
def rowMatchesCount (q source role_type location : Str) (r : Row) : Bool :=
  (q.isEmpty || (likeMatch (likePat (lowerStr q)) (lowerStr r.title) ||
    likeMatch (likePat (lowerStr q)) (lowerStr r.company))) &&
  (source.isEmpty || r.source == source) &&
  (role_type.isEmpty || r.role_type == role_type) &&
  (location.isEmpty ||
    (if lowerStr location == "lahore".data then
      likeMatch (likePat "lahore".data) (lowerStr r.location)
    else if lowerStr location == "remote".data then
      likeMatch (likePat "remote".data) (lowerStr r.location)
    else true))

/-- `ORDER BY scraped_at DESC, id DESC`: `a` may come before `b`. -/
def RowLe (a b : Row) : Prop :=
  b.scraped_at < a.scraped_at ∨ (a.scraped_at = b.scraped_at ∧ b.id ≤ a.id)

instance : DecidableRel RowLe := fun a b => by unfold RowLe; infer_instance

instance : IsTotal Row RowLe :=
  ⟨by intro a b; unfold RowLe; omega⟩

instance : IsTrans Row RowLe :=
  ⟨by intro a b c hab hbc; unfold RowLe at hab hbc ⊢; omega⟩

/-- repo.py `list_jobs`: SELECT with the filters, `ORDER BY scraped_at DESC,
id DESC`, then `LIMIT ? OFFSET ?` (OFFSET skips first, LIMIT caps). -/
def list_jobs (s : Store) (q source role_type location : Str)
    (limit offset : Nat) : List Row :=
  ((((s.rows.filter (rowMatchesList q source role_type location)).insertionSort
    RowLe).drop offset).take limit)

/-- repo.py `count_jobs`: `SELECT COUNT(*)` with the same (re-written)
filters and no LIMIT/OFFSET. -/
def count_jobs (s : Store) (q source role_type location : Str) : Nat :=
  (s.rows.filter (rowMatchesCount q source role_type location)).length

/-- The spec-side reading of the filters: plain case-insensitive SUBSTRING
match of `q` against title or company (and of the location buckets), rather
than SQL LIKE pattern matching. -/
def specMatch (q source role_type location : Str) (r : Row) : Bool :=
  (q.isEmpty || (containsSub (lowerStr r.title) (lowerStr q) ||
    containsSub (lowerStr r.company) (lowerStr q))) &&
  (source.isEmpty || r.source == source) &&
  (role_type.isEmpty || r.role_type == role_type) &&
  (location.isEmpty ||
    (if lowerStr location == "lahore".data then
      containsSub (lowerStr r.location) "lahore".data
    else if lowerStr location == "remote".data then
      containsSub (lowerStr r.location) "remote".data
    else true))

/-- `q` holds no SQL LIKE wildcard character. -/
def noWild (q : Str) : Prop := '%' ∉ q ∧ '_' ∉ q

/-- A concrete stored row used by the search/export counterexamples. -/
def row6 : Row :=
  ⟨1, "abc".data, "co".data, "Lahore".data, "rozee".data, "junior".data,
    "Today".data, none, "u1".data, 5⟩

/-- A one-row store used by the search counterexample. -/
def st6 : Store := ⟨2, [row6]⟩

/-- The CSV header row written by main.py `export_csv` (the query aliases
`posted_date_text` as `posted_date`, hence the header name). -/
def csvHeader : List Str :=
  ["title".data, "company".data, "location".data, "source".data,
    "role_type".data, "posted_date".data, "apply_url".data]

/-- The per-job CSV row of main.py `export_csv`: title, company, location,
source, role_type, posted_date (the row's `posted_date_text`), apply_url. -/
def csvRow (j : Row) : List Str :=
  [j.title, j.company, j.location, j.source, j.role_type,
    j.posted_date_text, j.apply_url]

/-- main.py `export_csv`: the current filters are passed to `list_jobs` with
`limit=10000, offset=0` and each returned job becomes one CSV row after the
header. -/
def export_csv (s : Store) (q source role_type location : Str) :
    List (List Str) :=
  csvHeader :: (list_jobs s q source role_type location 10000 0).map csvRow

def bigRow (i : Nat) : Row :=
  ⟨i + 1, "t".data, "c".data, "l".data, "s".data, "junior".data,
    "d".data, none, "u".data, 0⟩

/-- A store with 10001 rows, one more than the export limit. -/
def bigStore : Store := ⟨10002, (List.range 10001).map bigRow⟩

/-- The observable behaviour of one adapter call `fetch_fn()`: either the
list of records it returns, or the message of the exception it raises. -/
abbrev Fetched := Except Str (List JobRec)

/-- One `(fetched, inserted, status)` entry of the refresh report. -/
structure SourceResult where
  name : Str
  fetched : Nat
  inserted : Nat
  status : Str
deriving DecidableEq, Repr

/-- main.py `_run_source` failure status: `str(e)[:80].replace(" ", "_")`. -/
def truncStatus (e : Str) : Str :=
  (e.take 80).map (fun c => if c = ' ' then '_' else c)

/-- main.py `_run_source`: run one scraper and insert its output, returning
`(fetched, inserted, status)`; any exception is caught and becomes a
`(0, 0, <truncated message>)` entry with the store untouched. -/
def runSource (outcome : Fetched) (stamp : Nat) (s : Store) :
    (Nat × Nat × Str) × Store :=
  match outcome with
  | .ok jobs =>
    ((jobs.length, (insert_jobs s stamp jobs).1, "ok".data),
      (insert_jobs s stamp jobs).2)
  | .error e => ((0, 0, truncStatus e), s)

/-- The mutable context of main.py `refresh`'s inner `run` closure: the
running totals, the `status_parts` list, the per-source results and the
database state. -/
structure RunAcc where
  totalFetched : Nat
  totalInserted : Nat
  statusParts : List Str
  results : List SourceResult
  store : Store
deriving Repr

/-- The status string appended per source: `f"{name} ok"` when the source
succeeded, else `f"{name} {st}"`. -/
def statusEntry (name st : Str) : Str :=
  if st == "ok".data then name ++ (' ' :: "ok".data) else name ++ (' ' :: st)

/-- One call of main.py `refresh`'s `run(name, fetch_fn, insert_fn)`. -/
def runStep (acc : RunAcc) (name : Str) (outcome : Fetched) (stamp : Nat) :
    RunAcc :=
  let r := runSource outcome stamp acc.store
  ⟨acc.totalFetched + r.1.1, acc.totalInserted + r.1.2.1,
    acc.statusParts ++ [statusEntry name r.1.2.2],
    acc.results ++ [⟨name, r.1.1, r.1.2.1, r.1.2.2⟩], r.2⟩

/-- The sequence of `run(...)` calls over the configured adapters.  `stamps i`
is the UTC timestamp `insert_jobs` reads from the clock during the i-th
source's insert. -/
def runAll : List (Str × Fetched) → (Nat → Nat) → Nat → RunAcc → RunAcc
  | [], _, _, acc => acc
  | (n, o) :: rest, stamps, i, acc =>
    runAll rest stamps (i + 1) (runStep acc n o (stamps i))

def zeroAcc (s : Store) : RunAcc := ⟨0, 0, [], [], s⟩

/-- The run of all adapters from a fresh accumulator over store `s`,
numbering sources from `i`. -/
def runOut (adapters : List (Str × Fetched)) (stamps : Nat → Nat) (i : Nat)
    (s : Store) : RunAcc :=
  runAll adapters stamps i (zeroAcc s)

/-- The refresh outcome surfaced to the dashboard via redirect query
parameters in main.py `refresh`. -/
structure Report where
  rateLimited : Bool
  totalFetched : Nat
  totalInserted : Nat
  results : List SourceResult
  refreshStatus : Str
deriving DecidableEq, Repr

/-- The process-wide module state of main.py: `_last_refresh_at` and the
database. -/
structure GlobalState where
  lastRefreshAt : Option ℚ
  store : Store
deriving DecidableEq, Repr

/-- main.py `REFRESH_COOLDOWN_SEC = 30`. -/
def REFRESH_COOLDOWN_SEC : ℚ := 30

/-- The `/?rate_limited=1&refreshed=0` redirect of the gated branch. -/
def rateLimitedReport : Report := ⟨true, 0, 0, [], []⟩

/-- The non-gated body of main.py `refresh`: run every configured source,
join the status parts with `", "`, and set `_last_refresh_at` to the
completion time `done`. -/
def refreshRun (adapters : List (Str × Fetched)) (stamps : Nat → Nat)
    (done : ℚ) (g : GlobalState) : Report × GlobalState :=
  let acc := runOut adapters stamps 0 g.store
  (⟨false, acc.totalFetched, acc.totalInserted, acc.results,
    joinSep ", ".data acc.statusParts⟩,
   ⟨some done, acc.store⟩)

/-- main.py `refresh`: if the previous refresh completed less than
`REFRESH_COOLDOWN_SEC` before `now` (by `time.perf_counter()` readings),
return the rate-limited redirect with every piece of state untouched;
otherwise run all sources. -/
def refresh (adapters : List (Str × Fetched)) (stamps : Nat → Nat)
    (now done : ℚ) (g : GlobalState) : Report × GlobalState :=
  match g.lastRefreshAt with
  | some t =>
    if now - t < REFRESH_COOLDOWN_SEC then (rateLimitedReport, g)
    else refreshRun adapters stamps done g
  | none => refreshRun adapters stamps done g

/-- The cooldown gate is open: no previous refresh, or the previous one
completed at least 30 seconds ago. -/
def gateOpen (now : ℚ) (g : GlobalState) : Prop :=
  g.lastRefreshAt = none ∨ ∃ t, g.lastRefreshAt = some t ∧ ¬ now - t < 30

def advW_pre : List (Str × Fetched) := [("A".data, Except.ok [mkRec "w1".data])]

def advW : List (Str × Fetched) :=
  advW_pre ++ ("B".data, Except.error "x y".data) :: []

def gW : GlobalState := ⟨none, Store.empty⟩

/-- One parsed dict of the RemoteOK JSON array (after the
`isinstance(j, dict)` filter of remoteok.py). -/
structure RokEntry where
  position : Option Str
  company : Option Str
  url : Option Str
  tags : List Str
  date : Option Str
deriving DecidableEq, Repr

/-- The per-entry body of the remoteok.py loop: strip title/company/url,
skip entries with empty title or url, keep only python-tagged or
python-titled entries, infer the role type. -/
def rokItem (j : RokEntry) : Option JobRec :=
  let title := pyStrip (orElseStr j.position [])
  let company := pyStrip (orElseStr j.company "Unknown".data)
  let apply_url := pyStrip (orElseStr j.url [])
  let tags := j.tags.map lowerStr
  if title.isEmpty || apply_url.isEmpty then none
  else if !(containsSub (lowerStr title) "python".data)
      && !(tags.any (fun t => t == "python".data)) then none
  else
    some ⟨title, company, "Remote".data, "remoteok".data, inferRoleApi title,
      orElseStr j.date "unknown".data, none, apply_url⟩

/-- The remoteok.py loop with its `if len(out) >= limit: break`: the `limit`
parameter is the remaining capacity. -/
def rokExtract (limit : Nat) : List RokEntry → List JobRec
  | [] => []
  | e :: rest =>
    match rokItem e with
    | none => rokExtract limit rest
    | some r => if limit ≤ 1 then [r] else r :: rokExtract (limit - 1) rest

/-- One parsed dict of the github_jobs.py JSON list. -/
structure GhEntry where
  title : Option Str
  position : Option Str
  company : Option Str
  company_name : Option Str
  url : Option Str
  link : Option Str
  location : Option Str
  date : Option Str
  created_at : Option Str
deriving DecidableEq, Repr

/-- The per-entry body of the github_jobs.py loop (Python `x or y or d`
chains, strip, skip on empty title/url, role inference). -/
def ghItem (j : GhEntry) : Option JobRec :=
  let title := pyStrip (orElseStr j.title (orElseStr j.position []))
  let company := pyStrip (orElseStr j.company
    (orElseStr j.company_name "Unknown".data))
  let apply_url := pyStrip (orElseStr j.url (orElseStr j.link []))
  if title.isEmpty || apply_url.isEmpty then none
  else
    some ⟨title, company, pyStrip (orElseStr j.location "Remote".data),
      "github_jobs".data, inferRoleApi title,
      orElseStr j.date (orElseStr j.created_at "unknown".data), none,
      apply_url⟩

def ghExtract (limit : Nat) : List GhEntry → List JobRec
  | [] => []
  | e :: rest =>
    match ghItem e with
    | none => ghExtract limit rest
    | some r => if limit ≤ 1 then [r] else r :: ghExtract (limit - 1) rest

/-- One `item` element of the weworkremotely.py RSS channel; each field is
the text of the corresponding child element when present. -/
structure RssItem where
  title : Option Str
  link : Option Str
  description : Option Str
  pubDate : Option Str
deriving DecidableEq, Repr

/-- weworkremotely.py `_text`: empty string for a missing element, stripped
text otherwise. -/
def textOf (o : Option Str) : Str :=
  match o with
  | none => []
  | some s => pyStrip s

/-- The title/company split of weworkremotely.py: on `" at "` the part
before becomes the title and the part after the company; else on `" - "`
the part before becomes the company and the part after the title; else the
company stays "Unknown".  Returns `(company, title)`. -/
def wwrSplit (title0 : Str) : Str × Str :=
  match splitFirst " at ".data title0 with
  | some (a, b) => (pyStrip b, pyStrip a)
  | none =>
    match splitFirst " - ".data title0 with
    | some (a, b) => (pyStrip a, pyStrip b)
    | none => ("Unknown".data, title0)

/-- The per-item body of the weworkremotely.py loop.  Note the emitted
record's company is the hard-coded "Unknown" of the source, not the company
computed by the split. -/
def wwrItem (it : RssItem) : Option JobRec :=
  let title0 := textOf it.title
  let apply_url := textOf it.link
  if title0.isEmpty || apply_url.isEmpty then none
  else
    let title := (wwrSplit title0).2
    let raw_desc := textOf it.description
    if !(containsSub (lowerStr title) "python".data)
        && !(containsSub (lowerStr raw_desc) "python".data) then none
    else
      some ⟨title, "Unknown".data, "Remote".data, "weworkremotely".data,
        inferRoleApi title,
        (if (textOf it.pubDate).isEmpty then "unknown".data
          else textOf it.pubDate), none, apply_url⟩

def wwrExtract (limit : Nat) : List RssItem → List JobRec
  | [] => []
  | e :: rest =>
    match wwrItem e with
    | none => wwrExtract limit rest
    | some r => if limit ≤ 1 then [r] else r :: wwrExtract (limit - 1) rest

/-- One job card of the rozee.py result page: the first `<a>` (its text and
href attribute) when present, and the optional company/location/date
elements' text. -/
structure Card where
  anchor : Option (Str × Option Str)
  company_el : Option Str
  location_el : Option Str
  date_el : Option Str
deriving DecidableEq, Repr

/-- The per-card body of the rozee.py loop: skip cards with no `<a>` element
(but NOT cards whose `<a>` has empty text), resolve relative hrefs against
the rozee origin, skip empty urls, default company/location/date. -/
def rozeeItem (c : Card) : Option JobRec :=
  match c.anchor with
  | none => none
  | some (txt, href) =>
    let title := clean txt
    let au0 := orElseStr href []
    let au := if !au0.isEmpty && isPre "/".data au0
      then "https://www.rozee.pk".data ++ au0 else au0
    if au.isEmpty then none
    else
      some ⟨title,
        (match c.company_el with
         | some s => clean s
         | none => "Unknown".data),
        (match c.location_el with
         | some s => clean s
         | none => "Lahore".data),
        "rozee".data, inferRoleRozee title,
        (match c.date_el with
         | some s => clean s
         | none => "unknown".data),
        none, au⟩

def rozeeExtract (cards : List Card) : List JobRec :=
  cards.filterMap rozeeItem

/-- The card of the C7 counterexample: an anchor with a link but empty text. -/
def cardC7 : Card := ⟨some ([], some "/j/1".data), none, none, none⟩

def recC7 : JobRec :=
  ⟨[], "Unknown".data, "Lahore".data, "rozee".data, "junior".data,
    "unknown".data, none, "https://www.rozee.pk/j/1".data⟩

def itemC8 : RssItem :=
  ⟨some "Python Dev at Acme".data, some "https://x".data,
    some "python".data, none⟩

def recC8 : JobRec :=
  ⟨"Python Dev".data, "Unknown".data, "Remote".data, "weworkremotely".data,
    "entry".data, "unknown".data, none, "https://x".data⟩

def entryC7 : RokEntry :=
  ⟨some "Python Intern".data, some "Acme".data, some "https://r".data,
    ["python".data], some "2024".data⟩

def recC7w : JobRec :=
  ⟨"Python Intern".data, "Acme".data, "Remote".data, "remoteok".data,
    "intern".data, "2024".data, none, "https://r".data⟩

def itemC8w : RssItem :=
  ⟨some "Python Eng at Foo".data, some "https://y".data,
    some "python".data, none⟩

def recC8w : JobRec :=
  ⟨"Python Eng".data, "Unknown".data, "Remote".data, "weworkremotely".data,
    "entry".data, "unknown".data, none, "https://y".data⟩

theorem likeMatchF_mono : ∀ (fuel fuel' : Nat) (p t : Str),
    p.length + t.length < fuel → p.length + t.length < fuel' →
    likeMatchF fuel p t = likeMatchF fuel' p t := by
  intro fuel
  induction fuel with
  | zero => intro fuel' p t h; omega
  | succ n ih =>
    intro fuel' p t h h'
    match fuel', h' with
    | m + 1, h' =>
      match p, t with
      | [], t => rfl
      | p :: ps, [] =>
        simp only [likeMatchF]
        by_cases hp : p = '%'
        · simp only [if_pos hp]
          exact ih m ps [] (by simp at h ⊢; omega) (by simp at h' ⊢; omega)
        · simp only [if_neg hp]
      | p :: ps, c :: ts =>
        simp only [likeMatchF]
        have e1 : likeMatchF n ps (c :: ts) = likeMatchF m ps (c :: ts) :=
          ih m ps (c :: ts) (by simp at h ⊢; omega) (by simp at h' ⊢; omega)
        have e2 : likeMatchF n (p :: ps) ts = likeMatchF m (p :: ps) ts :=
          ih m (p :: ps) ts (by simp at h ⊢; omega) (by simp at h' ⊢; omega)
        have e3 : likeMatchF n ps ts = likeMatchF m ps ts :=
          ih m ps ts (by simp at h ⊢; omega) (by simp at h' ⊢; omega)
        rw [e1, e2, e3]

theorem likeMatch_nil (t : Str) : likeMatch [] t = t.isEmpty := rfl

theorem likeMatch_eqF (p t : Str) (fuel : Nat) (h : p.length + t.length < fuel) :
    likeMatchF fuel p t = likeMatch p t :=
  likeMatchF_mono fuel (p.length + t.length + 1) p t h (by omega)

theorem likeMatch_cons_nil (p : Char) (ps : Str) :
    likeMatch (p :: ps) [] = if p = '%' then likeMatch ps [] else false := by
  show likeMatchF ((p :: ps).length + List.length [] + 1) (p :: ps) [] = _
  simp only [likeMatchF]
  rw [likeMatch_eqF ps [] ((p :: ps).length + List.length []) (by simp)]

theorem likeMatch_cons_cons (p : Char) (ps : Str) (c : Char) (ts : Str) :
    likeMatch (p :: ps) (c :: ts) =
      if p = '%' then likeMatch ps (c :: ts) || likeMatch (p :: ps) ts
      else if p = '_' then likeMatch ps ts
      else p == c && likeMatch ps ts := by
  show likeMatchF ((p :: ps).length + (c :: ts).length + 1) (p :: ps) (c :: ts) = _
  simp only [likeMatchF]
  rw [likeMatch_eqF ps (c :: ts) ((p :: ps).length + (c :: ts).length)
      (by simp only [List.length_cons]; omega),
    likeMatch_eqF (p :: ps) ts ((p :: ps).length + (c :: ts).length)
      (by simp only [List.length_cons]; omega),
    likeMatch_eqF ps ts ((p :: ps).length + (c :: ts).length)
      (by simp only [List.length_cons]; omega)]

example : inferRoleApi "Python Intern Trainee".data = "intern".data := by decide

example : inferRoleRozee "Junior Developer".data = "junior".data := by decide

example : likeMatch (likePat "_".data) "abc".data = true := by decide

example : containsSub "abc".data "_".data = false := by decide

example : pyStrip "  a b  ".data = "a b".data := by decide

example : splitFirst " at ".data "Python Dev at Acme".data =
    some ("Python Dev".data, "Acme".data) := by decide

example : clean "  a \n b ".data = "a b".data := by decide

theorem insertOne_dup (now : Nat) (s : Store) (j : JobRec)
    (h : hasUrl s j.apply_url = true) : insertOne now s j = (0, s) := by
  simp only [insertOne, if_pos h]

theorem insertOne_fresh (now : Nat) (s : Store) (j : JobRec)
    (h : ¬ hasUrl s j.apply_url = true) :
    insertOne now s j = (1, ⟨s.nextId + 1, s.rows ++ [newRow now s j]⟩) := by
  simp only [insertOne, if_neg h, newRow]

theorem insertLoop_rows_append (now : Nat) (js : List JobRec) :
    ∀ s : Store, ∃ tl, (insertLoop now s js).2.rows = s.rows ++ tl := by
  induction js with
  | nil => intro s; exact ⟨[], by simp [insertLoop]⟩
  | cons j js ih =>
    intro s
    simp only [insertLoop]
    by_cases h : hasUrl s j.apply_url = true
    · simpa [insertOne_dup now s j h] using ih s
    · obtain ⟨tl, htl⟩ := ih (insertOne now s j).2
      refine ⟨[newRow now s j] ++ tl, ?_⟩
      rw [htl, insertOne_fresh now s j h]
      simp

theorem hasUrl_mono (now : Nat) (js : List JobRec) (s : Store) (u : Str)
    (h : hasUrl s u = true) : hasUrl (insertLoop now s js).2 u = true := by
  obtain ⟨tl, htl⟩ := insertLoop_rows_append now js s
  simp only [hasUrl, htl, List.any_append, Bool.or_eq_true]
  exact Or.inl h

theorem insertLoop_hasUrl (now : Nat) (js : List JobRec) :
    ∀ s : Store, ∀ j ∈ js, hasUrl (insertLoop now s js).2 j.apply_url = true := by
  induction js with
  | nil => intro s j hj; cases hj
  | cons j0 js ih =>
    intro s j hj
    rcases List.mem_cons.mp hj with hj | hj
    · subst hj
      simp only [insertLoop]
      apply hasUrl_mono
      by_cases h : hasUrl s j.apply_url = true
      · rw [insertOne_dup now s j h]; exact h
      · rw [insertOne_fresh now s j h]
        simp [hasUrl, newRow]
    · simpa only [insertLoop] using ih (insertOne now s j0).2 j hj

theorem insertLoop_all_dup (now : Nat) (js : List JobRec) :
    ∀ s : Store, (∀ j ∈ js, hasUrl s j.apply_url = true) →
    insertLoop now s js = (0, s) := by
  induction js with
  | nil => intro s _; rfl
  | cons j js ih =>
    intro s h
    have hj : hasUrl s j.apply_url = true := h j (List.mem_cons_self j js)
    simp only [insertLoop, insertOne_dup now s j hj]
    have := ih s (fun j' hj' => h j' (List.mem_cons_of_mem j hj'))
    simp [this]

theorem insertLoop_count (now : Nat) (js : List JobRec) :
    ∀ s : Store,
    (insertLoop now s js).2.rows.length = s.rows.length + (insertLoop now s js).1 := by
  induction js with
  | nil => intro s; simp [insertLoop]
  | cons j js ih =>
    intro s
    simp only [insertLoop]
    by_cases h : hasUrl s j.apply_url = true
    · simpa [insertOne_dup now s j h] using ih s
    · rw [insertOne_fresh now s j h]
      have := ih ⟨s.nextId + 1, s.rows ++ [newRow now s j]⟩
      simp only [this]
      simp
      omega

/-- A duplicate-URL single insert is a silent no-op (not an error): the
`INSERT OR IGNORE` conflict path, for any store. -/
theorem insert_single_dup_noop (s : Store) (t : Nat) (j : JobRec)
    (h : hasUrl s j.apply_url = true) : insert_jobs s t [j] = (0, s) := by
  simp only [insert_jobs, List.isEmpty_cons, Bool.false_eq_true, if_neg,
    not_false_iff]
  simp [insertLoop, insertOne_dup s.nextId.succ s j h, insertOne_dup t s j h]

theorem insertLoop_distinct (now : Nat) (js : List JobRec) :
    ∀ s : Store, distinctUrls s → distinctUrls (insertLoop now s js).2 := by
  induction js with
  | nil => intro s h; exact h
  | cons j js ih =>
    intro s h
    simp only [insertLoop]
    apply ih
    by_cases hd : hasUrl s j.apply_url = true
    · rw [insertOne_dup now s j hd]; exact h
    · rw [insertOne_fresh now s j hd]
      have hne : ∀ r ∈ s.rows, r.apply_url ≠ j.apply_url := by
        intro r hr
        simp only [hasUrl, List.any_eq_true, not_exists, not_and,
          Bool.not_eq_true] at hd
        intro he
        have := hd r hr
        simp [he] at this
      unfold distinctUrls at h ⊢
      simp only [List.pairwise_append, List.pairwise_cons]
      refine ⟨h, by simp, ?_⟩
      intro a ha b hb
      simp only [List.mem_singleton] at hb
      subst hb
      simpa [newRow] using hne a ha

theorem insert_jobs_distinct (s : Store) (t : Nat) (jobs : List JobRec)
    (h : distinctUrls s) : distinctUrls (insert_jobs s t jobs).2 := by
  by_cases hb : jobs.isEmpty
  · simpa [insert_jobs, hb] using h
  · simpa [insert_jobs, hb] using insertLoop_distinct t jobs s h

/-- C1: inserting the same batch a second time inserts nothing and leaves the
store (hence its row count) unchanged; in general the returned count equals
the number of rows the call actually persisted, and a duplicate `apply_url`
is counted as not-inserted rather than raising. -/
theorem C1_insert_dedup_idempotent (s : Store) (t1 t2 : Nat) (batch : List JobRec) :
    insert_jobs (insert_jobs s t1 batch).2 t2 batch = (0, (insert_jobs s t1 batch).2) ∧
    (insert_jobs s t1 batch).2.rows.length = s.rows.length + (insert_jobs s t1 batch).1 ∧
    (∀ j : JobRec, hasUrl s j.apply_url = true → insert_jobs s t2 [j] = (0, s)) := by
  refine ⟨?_, ?_, fun j h => insert_single_dup_noop s t2 j h⟩
  · by_cases hb : batch.isEmpty
    · rcases List.isEmpty_iff.mp hb with rfl
      rfl
    · have h1 : insert_jobs s t1 batch = insertLoop t1 s batch := by
        simp [insert_jobs, hb]
      have h2 : insert_jobs (insert_jobs s t1 batch).2 t2 batch
          = insertLoop t2 (insert_jobs s t1 batch).2 batch := by
        simp [insert_jobs, hb]
      rw [h2, h1]
      exact insertLoop_all_dup t2 batch _
        (fun j hj => insertLoop_hasUrl t1 batch s j hj)
  · by_cases hb : batch.isEmpty
    · rcases List.isEmpty_iff.mp hb with rfl
      rfl
    · have h1 : insert_jobs s t1 batch = insertLoop t1 s batch := by
        simp [insert_jobs, hb]
      rw [h1]
      exact insertLoop_count t1 batch s

theorem C1_insert_dedup_idempotent_witness :
    insert_jobs (insert_jobs Store.empty 3 [mkRec "u1".data]).2 9 [mkRec "u1".data]
      = (0, (insert_jobs Store.empty 3 [mkRec "u1".data]).2) :=
  (C1_insert_dedup_idempotent (insert_jobs Store.empty 3 [mkRec "u1".data]).2
      3 9 []).2.2 (mkRec "u1".data) (by decide)

/-- C2: every store reachable by `insert_jobs` calls from the empty store has
pairwise distinct `apply_url` values, and re-inserting an already-stored
`apply_url` is a silent no-op, not an error. -/
theorem C2_uniqueness_invariant (s : Store) (h : Reachable s) :
    distinctUrls s ∧
    (∀ (j : JobRec) (t : Nat), hasUrl s j.apply_url = true →
      insert_jobs s t [j] = (0, s)) := by
  refine ⟨?_, fun j t hj => insert_single_dup_noop s t j hj⟩
  induction h with
  | empty => simp [distinctUrls, Store.empty]
  | step s t jobs _ ih => exact insert_jobs_distinct s t jobs ih

theorem C2_uniqueness_invariant_witness :
    distinctUrls (insert_jobs Store.empty 3 [mkRec "u1".data, mkRec "u1".data]).2 ∧
    insert_jobs (insert_jobs Store.empty 3 [mkRec "u1".data, mkRec "u1".data]).2
        9 [mkRec "u1".data]
      = (0, (insert_jobs Store.empty 3 [mkRec "u1".data, mkRec "u1".data]).2) := by
  have h := C2_uniqueness_invariant
    (insert_jobs Store.empty 3 [mkRec "u1".data, mkRec "u1".data]).2
    (Reachable.step Store.empty 3 [mkRec "u1".data, mkRec "u1".data] Reachable.empty)
  exact ⟨h.1, h.2 (mkRec "u1".data) 9 (by decide)⟩

/-- C10: inserting an empty batch returns 0 and performs no store access at
all: the store is untouched and the result does not depend on the clock. -/
theorem C10_insert_empty_frame (s : Store) (t t' : Nat) :
    insert_jobs s t [] = (0, s) ∧ insert_jobs s t [] = insert_jobs s t' [] :=
  ⟨rfl, rfl⟩

theorem char_ofNat_toNat (n : Nat) (h : n.isValidChar) :
    (Char.ofNat n).toNat = n := by
  unfold Char.ofNat
  rw [dif_pos h]
  rfl

theorem lowerChar_eq_low (c d : Char) (hd : d.toNat < 97)
    (h : lowerChar c = d) : c = d := by
  unfold lowerChar at h
  by_cases hc : 65 ≤ c.toNat ∧ c.toNat ≤ 90
  · rw [if_pos hc] at h
    have hv : (c.toNat + 32).isValidChar := Or.inl (by omega)
    have := congrArg Char.toNat h
    rw [char_ofNat_toNat (c.toNat + 32) hv] at this
    omega
  · rwa [if_neg hc] at h

theorem noWild_lowerStr (q : Str) (hq : noWild q) : noWild (lowerStr q) := by
  obtain ⟨h1, h2⟩ := hq
  constructor
  · intro hm
    obtain ⟨c, hc, he⟩ := List.mem_map.mp hm
    exact h1 (lowerChar_eq_low c '%' (by decide) he ▸ hc)
  · intro hm
    obtain ⟨c, hc, he⟩ := List.mem_map.mp hm
    exact h2 (lowerChar_eq_low c '_' (by decide) he ▸ hc)

theorem isPre_nil (q : Str) : isPre q [] = q.isEmpty := by
  cases q <;> rfl

theorem likeMatch_pct_one (t : Str) : likeMatch ['%'] t = true := by
  induction t with
  | nil => rfl
  | cons c ts ih =>
    rw [likeMatch_cons_cons]
    simp [ih]

theorem likeMatch_lit (q : Str) (h1 : '%' ∉ q) (h2 : '_' ∉ q) :
    ∀ t : Str, likeMatch (q ++ ['%']) t = isPre q t := by
  induction q with
  | nil => intro t; simpa using likeMatch_pct_one t
  | cons a q ih =>
    have ha1 : a ≠ '%' := fun h => h1 (h ▸ List.mem_cons_self a q)
    have ha2 : a ≠ '_' := fun h => h2 (h ▸ List.mem_cons_self a q)
    have hq1 : '%' ∉ q := fun h => h1 (List.mem_cons_of_mem a h)
    have hq2 : '_' ∉ q := fun h => h2 (List.mem_cons_of_mem a h)
    intro t
    match t with
    | [] =>
      rw [List.cons_append, likeMatch_cons_nil, if_neg ha1]
      rfl
    | c :: ts =>
      rw [List.cons_append, likeMatch_cons_cons, if_neg ha1, if_neg ha2,
        ih hq1 hq2 ts]
      rfl

theorem likeMatch_likePat (q : Str) (hq : noWild q) :
    ∀ t : Str, likeMatch (likePat q) t = containsSub t q := by
  intro t
  induction t with
  | nil =>
    show likeMatch ('%' :: (q ++ ['%'])) [] = _
    rw [likeMatch_cons_nil, if_pos rfl, likeMatch_lit q hq.1 hq.2 [],
      isPre_nil]
    rfl
  | cons c ts ih =>
    show likeMatch ('%' :: (q ++ ['%'])) (c :: ts) = _
    rw [likeMatch_cons_cons, if_pos rfl, likeMatch_lit q hq.1 hq.2 (c :: ts)]
    show (isPre q (c :: ts) || likeMatch (likePat q) ts)
      = (isPre q (c :: ts) || containsSub ts q)
    rw [ih]

theorem rowMatchesList_eq_spec (q source role_type location : Str) (r : Row)
    (hq : noWild q) :
    rowMatchesList q source role_type location r
      = specMatch q source role_type location r := by
  have hlq := noWild_lowerStr q hq
  unfold rowMatchesList specMatch
  rw [likeMatch_likePat (lowerStr q) hlq, likeMatch_likePat (lowerStr q) hlq,
    likeMatch_likePat "lahore".data (by constructor <;> decide),
    likeMatch_likePat "remote".data (by constructor <;> decide)]

theorem rowMatchesCount_eq_list (q source role_type location : Str) (r : Row) :
    rowMatchesCount q source role_type location r
      = rowMatchesList q source role_type location r := rfl

/-- C6 (amended): for a query string free of SQL LIKE wildcards the search
contract holds as specified — `list_jobs` returns the stored rows satisfying
the conjunction of the supplied filters (case-insensitive substring `q`
against title or company, exact source and role_type, lahore/remote location
buckets), sorted by `scraped_at` descending with ties broken by insertion
order (`id`) descending, paginated by offset-then-limit; `count_jobs`
counts the rows matching the same filters with no pagination. -/
theorem C6_search_contract (s : Store) (q source role_type location : Str)
    (limit offset : Nat) (hq : noWild q) :
    list_jobs s q source role_type location limit offset
      = ((((s.rows.filter (specMatch q source role_type location)).insertionSort
          RowLe).drop offset).take limit) ∧
    count_jobs s q source role_type location
      = (s.rows.filter (specMatch q source role_type location)).length ∧
    ((s.rows.filter (specMatch q source role_type location)).insertionSort
      RowLe).Sorted RowLe ∧
    ((s.rows.filter (specMatch q source role_type location)).insertionSort
      RowLe).Perm (s.rows.filter (specMatch q source role_type location)) ∧
    ((s.rows.filter (specMatch q source role_type location)).length ≤ limit →
      (list_jobs s q source role_type location limit 0).Perm
        (s.rows.filter (specMatch q source role_type location))) := by
  have hfilter : s.rows.filter (rowMatchesList q source role_type location)
      = s.rows.filter (specMatch q source role_type location) := by
    apply List.filter_congr
    intro r _
    exact rowMatchesList_eq_spec q source role_type location r hq
  have hfilterc : s.rows.filter (rowMatchesCount q source role_type location)
      = s.rows.filter (specMatch q source role_type location) := by
    apply List.filter_congr
    intro r _
    rw [rowMatchesCount_eq_list]
    exact rowMatchesList_eq_spec q source role_type location r hq
  refine ⟨?_, ?_, ?_, ?_, ?_⟩
  · unfold list_jobs
    rw [hfilter]
  · unfold count_jobs
    rw [hfilterc]
  · exact List.sorted_insertionSort RowLe _
  · exact List.perm_insertionSort RowLe _
  · intro hlen
    unfold list_jobs
    rw [hfilter, List.drop_zero, List.take_of_length_le
      (by rw [List.length_insertionSort]; exact hlen)]
    exact List.perm_insertionSort RowLe _

/-- C6 counterexample: with `q = "_"` (a LIKE wildcard) the search returns a
row that does NOT satisfy the claimed case-insensitive-substring filter
semantics, because the SQL pattern `%_%` matches any non-empty title. -/
theorem C6_search_contract_counterexample :
    list_jobs st6 "_".data [] [] [] 10 0 = [row6] ∧
    specMatch "_".data [] [] [] row6 = false := by
  constructor
  · decide
  · decide

theorem C6_search_contract_witness :
    list_jobs st6 "b".data [] [] [] 10 0
      = ((((st6.rows.filter (specMatch "b".data [] [] [])).insertionSort
          RowLe).drop 0).take 10) ∧
    count_jobs st6 "b".data [] [] []
      = (st6.rows.filter (specMatch "b".data [] [] [])).length := by
  have h := C6_search_contract st6 "b".data [] [] [] 10 0
    (by constructor <;> decide)
  exact ⟨h.1, h.2.1⟩

/-- With no filters supplied, the CSV body length is the row count capped at
the export's `limit=10000`, and `count_jobs` is the full row count. -/
theorem export_unfiltered_len (s : Store) :
    (export_csv s [] [] [] []).length - 1 = min 10000 s.rows.length ∧
    count_jobs s [] [] [] [] = s.rows.length := by
  have hfilter : s.rows.filter (rowMatchesList [] [] [] []) = s.rows :=
    List.filter_eq_self.mpr (fun r _ => rfl)
  have hfilterc : s.rows.filter (rowMatchesCount [] [] [] []) = s.rows :=
    List.filter_eq_self.mpr (fun r _ => rfl)
  constructor
  · unfold export_csv list_jobs
    rw [hfilter, List.drop_zero, List.length_cons, List.length_map,
      List.length_take, List.length_insertionSort]
    omega
  · unfold count_jobs
    rw [hfilterc]

theorem bigStore_rows_len : bigStore.rows.length = 10001 := by
  unfold bigStore
  rw [List.length_map, List.length_range]

/-- C9 counterexample: with 10001 matching rows the CSV export emits only
10000 of them — the `limit=10000` passed to `list_jobs` is a pagination cap,
so not every matching record appears. -/
theorem C9_export_counterexample :
    (export_csv bigStore [] [] [] []).length - 1 = 10000 ∧
    count_jobs bigStore [] [] [] [] = 10001 := by
  obtain ⟨h1, h2⟩ := export_unfiltered_len bigStore
  rw [bigStore_rows_len] at h1 h2
  exact ⟨h1, h2⟩

/-- C9 (amended): the CSV export applies the same filter semantics as search
with `limit=10000, offset=0` — so it emits, in search order and in field
order title, company, location, source, role_type, posted_date_text,
apply_url, the first 10000 matching records; whenever at most 10000 records
match, every matching record appears. -/
theorem C9_export_completeness (s : Store) (q source role_type location : Str)
    (hq : noWild q) :
    export_csv s q source role_type location
      = csvHeader :: (((s.rows.filter (specMatch q source role_type
          location)).insertionSort RowLe).take 10000).map csvRow ∧
    ((s.rows.filter (specMatch q source role_type location)).length ≤ 10000 →
      ∀ r ∈ s.rows, specMatch q source role_type location r = true →
        csvRow r ∈ export_csv s q source role_type location) := by
  have hfilter : s.rows.filter (rowMatchesList q source role_type location)
      = s.rows.filter (specMatch q source role_type location) := by
    apply List.filter_congr
    intro r _
    exact rowMatchesList_eq_spec q source role_type location r hq
  constructor
  · unfold export_csv list_jobs
    rw [hfilter, List.drop_zero]
  · intro hlen r hr hmatch
    have hmem : r ∈ s.rows.filter (specMatch q source role_type location) :=
      List.mem_filter.mpr ⟨hr, hmatch⟩
    have hmem2 : r ∈ (s.rows.filter (specMatch q source role_type
        location)).insertionSort RowLe :=
      (List.perm_insertionSort RowLe _).mem_iff.mpr hmem
    unfold export_csv list_jobs
    rw [hfilter, List.drop_zero, List.take_of_length_le
      (by rw [List.length_insertionSort]; exact hlen)]
    exact List.mem_cons_of_mem _ (List.mem_map_of_mem csvRow hmem2)

theorem C9_export_completeness_witness :
    csvRow row6 ∈ export_csv st6 [] [] [] [] :=
  (C9_export_completeness st6 [] [] [] [] (by constructor <;> decide)).2
    (by decide) row6 (by decide) (by decide)

/-- C5: role inference is a case-insensitive substring match in fixed
priority order — "intern", else "trainee", else "junior", else the variant's
default ("entry" for the JSON-API and RSS adapters, "junior" for the
page-scraping rozee adapter, whose own chain stops at a "junior" default);
in particular "Python Intern Trainee" is an intern and "Junior Developer" a
junior under every variant. -/
theorem C5_role_inference (t : Str) :
    (containsSub (lowerStr t) "intern".data = true →
      inferRoleApi t = "intern".data ∧ inferRoleRozee t = "intern".data) ∧
    (containsSub (lowerStr t) "intern".data = false →
      containsSub (lowerStr t) "trainee".data = true →
      inferRoleApi t = "trainee".data ∧ inferRoleRozee t = "trainee".data) ∧
    (containsSub (lowerStr t) "intern".data = false →
      containsSub (lowerStr t) "trainee".data = false →
      containsSub (lowerStr t) "junior".data = true →
      inferRoleApi t = "junior".data ∧ inferRoleRozee t = "junior".data) ∧
    (containsSub (lowerStr t) "intern".data = false →
      containsSub (lowerStr t) "trainee".data = false →
      containsSub (lowerStr t) "junior".data = false →
      inferRoleApi t = "entry".data ∧ inferRoleRozee t = "junior".data) ∧
    inferRoleApi "Python Intern Trainee".data = "intern".data ∧
    inferRoleRozee "Python Intern Trainee".data = "intern".data ∧
    inferRoleApi "Junior Developer".data = "junior".data ∧
    inferRoleRozee "Junior Developer".data = "junior".data := by
  refine ⟨?_, ?_, ?_, ?_, by decide, by decide, by decide, by decide⟩
  · intro h1
    constructor <;> simp [inferRoleApi, inferRoleRozee, h1]
  · intro h1 h2
    constructor <;> simp [inferRoleApi, inferRoleRozee, h1, h2]
  · intro h1 h2 h3
    constructor <;> simp [inferRoleApi, inferRoleRozee, h1, h2, h3]
  · intro h1 h2 h3
    constructor <;> simp [inferRoleApi, inferRoleRozee, h1, h2, h3]

theorem C5_role_inference_witness :
    inferRoleApi "Django Trainee".data = "trainee".data ∧
    inferRoleRozee "Django Trainee".data = "trainee".data :=
  (C5_role_inference "Django Trainee".data).2.1 (by decide) (by decide)

/-- C3: a refresh started less than 30 seconds after the previous one
completed returns the rate-limited report, touches neither the store nor the
last-refresh timestamp, and its outcome is independent of the adapters (none
is invoked); once the cooldown has elapsed (or no refresh ever ran) the
refresh proceeds (not rate-limited) and sets the timestamp to its completion
time `done` whatever the per-source outcomes were. -/
theorem C3_rate_limit_gate (adapters adapters' : List (Str × Fetched))
    (stamps stamps' : Nat → Nat) (now done : ℚ) (g : GlobalState) :
    (∀ t, g.lastRefreshAt = some t → now - t < 30 →
      refresh adapters stamps now done g = (rateLimitedReport, g) ∧
      refresh adapters stamps now done g
        = refresh adapters' stamps' now done g) ∧
    ((g.lastRefreshAt = none ∨
        ∃ t, g.lastRefreshAt = some t ∧ ¬ now - t < 30) →
      (refresh adapters stamps now done g).1.rateLimited = false ∧
      (refresh adapters stamps now done g).2.lastRefreshAt = some done) := by
  constructor
  · intro t ht hlt
    have h30 : now - t < REFRESH_COOLDOWN_SEC := hlt
    rw [refresh, ht]
    rw [refresh, ht]
    simp [if_pos h30]
  · intro h
    rcases h with h | ⟨t, ht, hge⟩
    · rw [refresh, h]
      exact ⟨rfl, rfl⟩
    · have : ¬ now - t < REFRESH_COOLDOWN_SEC := hge
      rw [refresh, ht]
      simp [if_neg this, refreshRun]

theorem C3_rate_limit_gate_witness :
    refresh [("X".data, Except.error "boom".data)] (fun _ => 0) 10 50
        ⟨some 0, Store.empty⟩
      = (rateLimitedReport, ⟨some 0, Store.empty⟩) ∧
    (refresh [] (fun _ => 0) 100 120 ⟨some 0, Store.empty⟩).2.lastRefreshAt
      = some 120 := by
  constructor
  · exact ((C3_rate_limit_gate [("X".data, Except.error "boom".data)] []
      (fun _ => 0) (fun _ => 0) 10 50 ⟨some 0, Store.empty⟩).1 0 rfl
      (by norm_num)).1
  · exact ((C3_rate_limit_gate [] [] (fun _ => 0) (fun _ => 0) 100 120
      ⟨some 0, Store.empty⟩).2 (Or.inr ⟨0, rfl, by norm_num⟩)).2

theorem runAll_shape (adapters : List (Str × Fetched)) (stamps : Nat → Nat) :
    ∀ (i : Nat) (acc : RunAcc),
    runAll adapters stamps i acc =
      ⟨acc.totalFetched + (runOut adapters stamps i acc.store).totalFetched,
       acc.totalInserted + (runOut adapters stamps i acc.store).totalInserted,
       acc.statusParts ++ (runOut adapters stamps i acc.store).statusParts,
       acc.results ++ (runOut adapters stamps i acc.store).results,
       (runOut adapters stamps i acc.store).store⟩ := by
  induction adapters with
  | nil =>
    intro i acc
    simp [runAll, runOut, zeroAcc]
  | cons a rest ih =>
    obtain ⟨n, o⟩ := a
    intro i acc
    show runAll rest stamps (i + 1) (runStep acc n o (stamps i)) = _
    rw [ih (i + 1) (runStep acc n o (stamps i))]
    have hz : runOut ((n, o) :: rest) stamps i acc.store
        = runAll rest stamps (i + 1)
            (runStep (zeroAcc acc.store) n o (stamps i)) := rfl
    rw [hz, ih (i + 1) (runStep (zeroAcc acc.store) n o (stamps i))]
    simp [runStep, zeroAcc, Nat.add_assoc, List.append_assoc]

theorem runOut_cons (n : Str) (o : Fetched) (rest : List (Str × Fetched))
    (stamps : Nat → Nat) (i : Nat) (s : Store) :
    runOut ((n, o) :: rest) stamps i s =
      ⟨(runSource o (stamps i) s).1.1
          + (runOut rest stamps (i + 1)
              (runSource o (stamps i) s).2).totalFetched,
       (runSource o (stamps i) s).1.2.1
          + (runOut rest stamps (i + 1)
              (runSource o (stamps i) s).2).totalInserted,
       statusEntry n (runSource o (stamps i) s).1.2.2
          :: (runOut rest stamps (i + 1)
              (runSource o (stamps i) s).2).statusParts,
       ⟨n, (runSource o (stamps i) s).1.1, (runSource o (stamps i) s).1.2.1,
          (runSource o (stamps i) s).1.2.2⟩
          :: (runOut rest stamps (i + 1) (runSource o (stamps i) s).2).results,
       (runOut rest stamps (i + 1) (runSource o (stamps i) s).2).store⟩ := by
  show runAll rest stamps (i + 1) (runStep (zeroAcc s) n o (stamps i)) = _
  rw [runAll_shape rest stamps (i + 1) (runStep (zeroAcc s) n o (stamps i))]
  simp [runStep, zeroAcc]

theorem runAll_append (xs ys : List (Str × Fetched)) (stamps : Nat → Nat) :
    ∀ (i : Nat) (acc : RunAcc),
    runAll (xs ++ ys) stamps i acc
      = runAll ys stamps (i + xs.length) (runAll xs stamps i acc) := by
  induction xs with
  | nil => intro i acc; simp [runAll]
  | cons a rest ih =>
    obtain ⟨n, o⟩ := a
    intro i acc
    show runAll (rest ++ ys) stamps (i + 1) (runStep acc n o (stamps i)) = _
    rw [ih (i + 1) (runStep acc n o (stamps i))]
    have h : i + 1 + rest.length = i + (rest.length + 1) := by omega
    rw [h]
    rfl

theorem runOut_append (xs ys : List (Str × Fetched)) (stamps : Nat → Nat)
    (i : Nat) (s : Store) :
    runOut (xs ++ ys) stamps i s =
      ⟨(runOut xs stamps i s).totalFetched
          + (runOut ys stamps (i + xs.length)
              (runOut xs stamps i s).store).totalFetched,
       (runOut xs stamps i s).totalInserted
          + (runOut ys stamps (i + xs.length)
              (runOut xs stamps i s).store).totalInserted,
       (runOut xs stamps i s).statusParts
          ++ (runOut ys stamps (i + xs.length)
              (runOut xs stamps i s).store).statusParts,
       (runOut xs stamps i s).results
          ++ (runOut ys stamps (i + xs.length)
              (runOut xs stamps i s).store).results,
       (runOut ys stamps (i + xs.length) (runOut xs stamps i s).store).store⟩
    := by
  unfold runOut
  rw [runAll_append xs ys stamps i (zeroAcc s),
    runAll_shape ys stamps (i + xs.length) (runAll xs stamps i (zeroAcc s))]
  rfl

theorem statusEntry_eq (n st : Str) : statusEntry n st = n ++ (' ' :: st) := by
  unfold statusEntry
  by_cases h : st == "ok".data
  · have he : st = "ok".data := by simpa using h
    rw [if_pos h, he]
  · rw [if_neg h]

theorem runOut_props (adapters : List (Str × Fetched)) (stamps : Nat → Nat) :
    ∀ (i : Nat) (s : Store),
    ((runOut adapters stamps i s).results.map SourceResult.name
      = adapters.map Prod.fst) ∧
    ((runOut adapters stamps i s).totalFetched
      = ((runOut adapters stamps i s).results.map SourceResult.fetched).sum) ∧
    ((runOut adapters stamps i s).totalInserted
      = ((runOut adapters stamps i s).results.map SourceResult.inserted).sum) ∧
    ((runOut adapters stamps i s).statusParts
      = (runOut adapters stamps i s).results.map
          (fun r => r.name ++ (' ' :: r.status))) := by
  induction adapters with
  | nil => intro i s; simp [runOut, runAll, zeroAcc]
  | cons a rest ih =>
    obtain ⟨n, o⟩ := a
    intro i s
    rw [runOut_cons]
    obtain ⟨ih1, ih2, ih3, ih4⟩ := ih (i + 1) (runSource o (stamps i) s).2
    exact ⟨by simp [ih1], by simp [ih2], by simp [ih3],
      by simp [ih4, statusEntry_eq]⟩

theorem refresh_open (adapters : List (Str × Fetched)) (stamps : Nat → Nat)
    (now done : ℚ) (g : GlobalState) (h : gateOpen now g) :
    refresh adapters stamps now done g = refreshRun adapters stamps done g := by
  rcases h with h | ⟨t, ht, hge⟩
  · rw [refresh, h]
  · rw [refresh, ht]
    exact if_neg hge

/-- C4: past the gate, a refresh runs each configured adapter exactly once,
in order; a raising adapter contributes `(0, 0, truncated-message)` and
leaves the store exactly as the adapters before it left it, so the later
adapters (and their report entries) proceed as if it were absent; a
succeeding adapter contributes `(len(output), insert count, "ok")`; the
report's totals are the sums over the per-source entries, its overall status
is the comma-joined `"<name> <status>"` parts, and a report is always
returned (`refresh` is a total function, never propagating an adapter
error). -/
theorem C4_fault_isolation (adapters : List (Str × Fetched))
    (stamps : Nat → Nat) (now done : ℚ) (g : GlobalState)
    (hopen : gateOpen now g) :
    (refresh adapters stamps now done g).1.rateLimited = false ∧
    (refresh adapters stamps now done g).1.results.map SourceResult.name
      = adapters.map Prod.fst ∧
    (refresh adapters stamps now done g).1.totalFetched
      = ((refresh adapters stamps now done g).1.results.map
          SourceResult.fetched).sum ∧
    (refresh adapters stamps now done g).1.totalInserted
      = ((refresh adapters stamps now done g).1.results.map
          SourceResult.inserted).sum ∧
    (refresh adapters stamps now done g).1.refreshStatus
      = joinSep ", ".data ((refresh adapters stamps now done g).1.results.map
          (fun r => r.name ++ (' ' :: r.status))) ∧
    (∀ (pre : List (Str × Fetched)) (nm e : Str)
        (post : List (Str × Fetched)),
      adapters = pre ++ (nm, Except.error e) :: post →
      (refresh adapters stamps now done g).1.results
        = (runOut pre stamps 0 g.store).results
          ++ ⟨nm, 0, 0, truncStatus e⟩
            :: (runOut post stamps (pre.length + 1)
                (runOut pre stamps 0 g.store).store).results ∧
      (refresh adapters stamps now done g).2.store
        = (runOut post stamps (pre.length + 1)
            (runOut pre stamps 0 g.store).store).store) ∧
    (∀ (pre : List (Str × Fetched)) (nm : Str) (jobs : List JobRec)
        (post : List (Str × Fetched)),
      adapters = pre ++ (nm, Except.ok jobs) :: post →
      (refresh adapters stamps now done g).1.results
        = (runOut pre stamps 0 g.store).results
          ++ ⟨nm, jobs.length,
              (insert_jobs (runOut pre stamps 0 g.store).store
                (stamps pre.length) jobs).1, "ok".data⟩
            :: (runOut post stamps (pre.length + 1)
                (insert_jobs (runOut pre stamps 0 g.store).store
                  (stamps pre.length) jobs).2).results) := by
  rw [refresh_open adapters stamps now done g hopen]
  obtain ⟨hn, hf, hi, hs⟩ := runOut_props adapters stamps 0 g.store
  refine ⟨rfl, ?_, ?_, ?_, ?_, ?_, ?_⟩
  · simpa [refreshRun] using hn
  · simpa [refreshRun] using hf
  · simpa [refreshRun] using hi
  · simp only [refreshRun]
    rw [hs]
  · intro pre nm e post hsplit
    subst hsplit
    simp only [refreshRun]
    rw [runOut_append pre ((nm, Except.error e) :: post) stamps 0 g.store,
      runOut_cons]
    constructor
    · simp [runSource]
    · simp [runSource]
  · intro pre nm jobs post hsplit
    subst hsplit
    simp only [refreshRun]
    rw [runOut_append pre ((nm, Except.ok jobs) :: post) stamps 0 g.store,
      runOut_cons]
    simp [runSource]

theorem C4_fault_isolation_witness :
    (refresh advW (fun _ => 0) 0 1 gW).1.rateLimited = false ∧
    (refresh advW (fun _ => 0) 0 1 gW).1.results
      = (runOut advW_pre (fun _ => 0) 0 gW.store).results
        ++ ⟨"B".data, 0, 0, truncStatus "x y".data⟩
          :: (runOut [] (fun _ => 0) (advW_pre.length + 1)
              (runOut advW_pre (fun _ => 0) 0 gW.store).store).results := by
  have h := C4_fault_isolation advW (fun _ => 0) 0 1 gW (Or.inl rfl)
  exact ⟨h.1, (h.2.2.2.2.2.1 advW_pre "B".data "x y".data [] rfl).1⟩

/-- C7 counterexample: the rozee adapter emits a record with an EMPTY title
for a card whose anchor has a link but empty text — the source only drops
cards lacking the anchor element, not ones whose title text is empty. -/
theorem C7_counterexample :
    rozeeExtract [cardC7] = [recC7] ∧ recC7.title = [] := by
  constructor
  · decide
  · decide

/-- C8 counterexample: for the feed title "Python Dev at Acme" the record's
company is "Unknown", not the parsed "Acme" — the split's company value is
computed but discarded by the source. -/
theorem C8_counterexample :
    wwrItem itemC8 = some recC8 ∧ recC8.company = "Unknown".data ∧
    recC8.company ≠ "Acme".data := by
  refine ⟨by decide, by decide, by decide⟩

theorem dropWhile_shape (p : Char → Bool) (l : Str) :
    List.dropWhile p l = []
      ∨ ∃ c cs, List.dropWhile p l = c :: cs ∧ p c = false := by
  induction l with
  | nil => left; rfl
  | cons a t ih =>
    by_cases h : p a
    · simpa [List.dropWhile_cons, h] using ih
    · right
      exact ⟨a, t, by simp [List.dropWhile_cons, h], by simpa using h⟩

theorem dropWhile_all (p : Char → Bool) (l : Str)
    (h : List.dropWhile p l = []) : ∀ c ∈ l, p c = true := by
  induction l with
  | nil => intro c hc; cases hc
  | cons a t ih =>
    intro c hc
    by_cases ha : p a
    · rw [List.dropWhile_cons, if_pos ha] at h
      rcases List.mem_cons.mp hc with rfl | hct
      · exact ha
      · exact ih h c hct
    · rw [List.dropWhile_cons, if_neg ha] at h
      cases h

theorem dropWhile_append_one (p : Char → Bool) (c : Char) (hc : p c = false)
    (x : Str) : List.dropWhile p (x ++ [c]) = List.dropWhile p x ++ [c] := by
  induction x with
  | nil => simp [List.dropWhile_cons, hc]
  | cons a t ih =>
    by_cases h : p a <;> simp [List.dropWhile_cons, h, ih]

theorem pyStrip_cons_shape (s : Str) (c : Char) (cs : Str)
    (h : List.dropWhile isWS s = c :: cs) :
    ∃ ds, pyStrip s = c :: ds := by
  have hcw : isWS c = false := by
    rcases dropWhile_shape isWS s with h0 | ⟨c', cs', h', hw⟩
    · rw [h0] at h; cases h
    · rw [h'] at h
      injection h with h1 _
      exact h1 ▸ hw
  unfold pyStrip
  rw [h, List.reverse_cons, dropWhile_append_one isWS c hcw cs.reverse]
  exact ⟨(List.dropWhile isWS cs.reverse).reverse, by simp⟩

theorem pyStrip_head_shape (s : Str) :
    pyStrip s = [] ∨ ∃ c cs, pyStrip s = c :: cs ∧ isWS c = false := by
  rcases dropWhile_shape isWS s with h0 | ⟨c, cs, h, hw⟩
  · left
    unfold pyStrip
    rw [h0]
    rfl
  · right
    obtain ⟨ds, hds⟩ := pyStrip_cons_shape s c cs h
    exact ⟨c, ds, hds, hw⟩

theorem pyStrip_last_shape (s : Str) :
    pyStrip s = [] ∨ ∃ cs c, pyStrip s = cs ++ [c] ∧ isWS c = false := by
  unfold pyStrip
  rcases dropWhile_shape isWS (s.dropWhile isWS).reverse with h0 | ⟨c, cs, h, hw⟩
  · left
    rw [h0]
    rfl
  · right
    rw [h, List.reverse_cons]
    exact ⟨cs.reverse, c, rfl, hw⟩

theorem pyStrip_ne_nil_of_mem (a : Str) (c : Char) (hm : c ∈ a)
    (hc : isWS c = false) : pyStrip a ≠ [] := by
  have hne : List.dropWhile isWS a ≠ [] := by
    intro h0
    have := dropWhile_all isWS a h0 c hm
    rw [hc] at this
    cases this
  rcases dropWhile_shape isWS a with h0 | ⟨c', cs', h', _⟩
  · exact absurd h0 hne
  · obtain ⟨ds, hds⟩ := pyStrip_cons_shape a c' cs' h'
    simp [hds]

theorem isPre_append_drop (sep : Str) :
    ∀ s : Str, isPre sep s = true → sep ++ s.drop sep.length = s := by
  induction sep with
  | nil => intro s _; simp
  | cons x xs ih =>
    intro s h
    match s with
    | [] => cases h
    | y :: ys =>
      simp only [isPre, Bool.and_eq_true, beq_iff_eq] at h
      obtain ⟨rfl, h2⟩ := h
      simp only [List.cons_append, List.length_cons, List.drop_succ_cons]
      rw [ih ys h2]

theorem splitFirst_eq (sep : Str) :
    ∀ s a b : Str, splitFirst sep s = some (a, b) → s = a ++ sep ++ b := by
  intro s
  induction s with
  | nil =>
    intro a b h
    unfold splitFirst at h
    by_cases hp : isPre sep [] = true
    · rw [if_pos hp] at h
      simp only [Option.some.injEq, Prod.mk.injEq] at h
      obtain ⟨h1, h2⟩ := h
      subst h1
      subst h2
      have hsep : sep = [] := by
        rw [isPre_nil] at hp
        exact List.isEmpty_iff.mp hp
      simp [hsep]
    · rw [if_neg hp] at h
      cases h
  | cons c t ih =>
    intro a b h
    unfold splitFirst at h
    by_cases hp : isPre sep (c :: t) = true
    · rw [if_pos hp] at h
      simp only [Option.some.injEq, Prod.mk.injEq] at h
      obtain ⟨h1, h2⟩ := h
      subst h1
      subst h2
      rw [List.nil_append]
      exact (isPre_append_drop sep (c :: t) hp).symm
    · rw [if_neg hp] at h
      cases hsp : splitFirst sep t with
      | none => rw [hsp] at h; cases h
      | some ab =>
        obtain ⟨a2, b2⟩ := ab
        rw [hsp] at h
        simp only [Option.some.injEq, Prod.mk.injEq] at h
        obtain ⟨h1, h2⟩ := h
        subst h1
        subst h2
        have ht := ih a2 b2 hsp
        rw [List.cons_append, List.cons_append, ← ht]

/-- The title produced by the weworkremotely split of a stripped, non-empty
feed title is itself non-empty: an occurrence of `" at "` cannot start a
stripped string, and an occurrence of `" - "` cannot end one. -/
theorem wwrSplit_snd_ne_nil (raw : Str) (h : pyStrip raw ≠ []) :
    (wwrSplit (pyStrip raw)).2 ≠ [] := by
  unfold wwrSplit
  cases hat : splitFirst " at ".data (pyStrip raw) with
  | some ab =>
    obtain ⟨a, b⟩ := ab
    simp only []
    have hdec := splitFirst_eq " at ".data (pyStrip raw) a b hat
    rcases pyStrip_head_shape raw with h0 | ⟨c, cs, hc, hcw⟩
    · exact absurd h0 h
    match a, hdec with
    | [], hdec =>
      rw [hc, List.nil_append] at hdec
      injection hdec with h1 _
      rw [h1] at hcw
      exact absurd hcw (by decide)
    | a0 :: as, hdec =>
      rw [hc, List.cons_append] at hdec
      injection hdec with h1 _
      exact pyStrip_ne_nil_of_mem (a0 :: as) a0 (List.mem_cons_self a0 as)
        (h1 ▸ hcw)
  | none =>
    cases hm : splitFirst " - ".data (pyStrip raw) with
    | some ab =>
      obtain ⟨a, b⟩ := ab
      simp only []
      have hdec := splitFirst_eq " - ".data (pyStrip raw) a b hm
      rcases pyStrip_last_shape raw with h0 | ⟨cs, c, hc, hcw⟩
      · exact absurd h0 h
      rcases List.eq_nil_or_concat b with rfl | ⟨b2, d, hb⟩
      · rw [hc, List.append_nil] at hdec
        have hl := congrArg List.getLast? hdec
        rw [List.getLast?_concat] at hl
        have h2 : a ++ " - ".data = (a ++ [' ', '-']) ++ [' '] := by simp
        rw [h2, List.getLast?_concat] at hl
        injection hl with h1
        rw [h1] at hcw
        exact absurd hcw (by decide)
      · rw [List.concat_eq_append] at hb
        subst hb
        rw [hc] at hdec
        have hl := congrArg List.getLast? hdec
        rw [List.getLast?_concat] at hl
        have h2 : a ++ " - ".data ++ (b2 ++ [d])
            = (a ++ " - ".data ++ b2) ++ [d] := by simp
        rw [h2, List.getLast?_concat] at hl
        injection hl with h1
        rw [h1] at hcw
        exact pyStrip_ne_nil_of_mem (b2 ++ [d]) d (by simp) hcw
    | none =>
      simpa using h

theorem wwrItem_fields (it : RssItem) (r : JobRec) (h : wwrItem it = some r) :
    r.title ≠ [] ∧ r.apply_url ≠ [] ∧ r.company = "Unknown".data ∧
    r.title = (wwrSplit (textOf it.title)).2 := by
  simp only [wwrItem] at h
  split at h
  · cases h
  · split at h
    · cases h
    · rename_i hne hpy
      simp only [Option.some.injEq] at h
      subst h
      simp only [Bool.or_eq_true, not_or, Bool.not_eq_true,
        List.isEmpty_eq_false] at hne
      obtain ⟨ht0, hurl⟩ := hne
      refine ⟨?_, hurl, rfl, rfl⟩
      cases hti : it.title with
      | none =>
        rw [hti] at ht0
        simp [textOf] at ht0
      | some s =>
        rw [hti] at ht0
        exact wwrSplit_snd_ne_nil s ht0

theorem rokItem_fields (e : RokEntry) (r : JobRec) (h : rokItem e = some r) :
    r.title ≠ [] ∧ r.apply_url ≠ [] := by
  simp only [rokItem] at h
  split at h
  · cases h
  · split at h
    · cases h
    · rename_i hne _
      simp only [Option.some.injEq] at h
      subst h
      simp only [Bool.or_eq_true, not_or, Bool.not_eq_true,
        List.isEmpty_eq_false] at hne
      exact ⟨hne.1, hne.2⟩

theorem ghItem_fields (e : GhEntry) (r : JobRec) (h : ghItem e = some r) :
    r.title ≠ [] ∧ r.apply_url ≠ [] := by
  simp only [ghItem] at h
  split at h
  · cases h
  · rename_i hne
    simp only [Option.some.injEq] at h
    subst h
    simp only [Bool.or_eq_true, not_or, Bool.not_eq_true,
      List.isEmpty_eq_false] at hne
    exact ⟨hne.1, hne.2⟩

theorem rozeeItem_fields (c : Card) (r : JobRec) (h : rozeeItem c = some r) :
    r.apply_url ≠ [] := by
  simp only [rozeeItem] at h
  split at h
  · cases h
  · rename_i txt href
    split at h
    · split at h
      · cases h
      · simp only [Option.some.injEq] at h
        subst h
        simp
    · split at h
      · cases h
      · rename_i hne
        simp only [Option.some.injEq] at h
        subst h
        simpa [List.isEmpty_eq_false] using hne

theorem rokExtract_mem (entries : List RokEntry) :
    ∀ (limit : Nat) (r : JobRec), r ∈ rokExtract limit entries →
    ∃ e ∈ entries, rokItem e = some r := by
  induction entries with
  | nil => intro limit r h; cases h
  | cons e rest ih =>
    intro limit r h
    simp only [rokExtract] at h
    cases he : rokItem e with
    | none =>
      simp only [he] at h
      obtain ⟨e2, he2, hi⟩ := ih limit r h
      exact ⟨e2, List.mem_cons_of_mem e he2, hi⟩
    | some r0 =>
      simp only [he] at h
      by_cases hl : limit ≤ 1
      · rw [if_pos hl] at h
        rcases List.mem_singleton.mp h with rfl
        exact ⟨e, List.mem_cons_self e rest, he⟩
      · rw [if_neg hl] at h
        rcases List.mem_cons.mp h with rfl | hrest
        · exact ⟨e, List.mem_cons_self e rest, he⟩
        · obtain ⟨e2, he2, hi⟩ := ih (limit - 1) r hrest
          exact ⟨e2, List.mem_cons_of_mem e he2, hi⟩

theorem ghExtract_mem (entries : List GhEntry) :
    ∀ (limit : Nat) (r : JobRec), r ∈ ghExtract limit entries →
    ∃ e ∈ entries, ghItem e = some r := by
  induction entries with
  | nil => intro limit r h; cases h
  | cons e rest ih =>
    intro limit r h
    simp only [ghExtract] at h
    cases he : ghItem e with
    | none =>
      simp only [he] at h
      obtain ⟨e2, he2, hi⟩ := ih limit r h
      exact ⟨e2, List.mem_cons_of_mem e he2, hi⟩
    | some r0 =>
      simp only [he] at h
      by_cases hl : limit ≤ 1
      · rw [if_pos hl] at h
        rcases List.mem_singleton.mp h with rfl
        exact ⟨e, List.mem_cons_self e rest, he⟩
      · rw [if_neg hl] at h
        rcases List.mem_cons.mp h with rfl | hrest
        · exact ⟨e, List.mem_cons_self e rest, he⟩
        · obtain ⟨e2, he2, hi⟩ := ih (limit - 1) r hrest
          exact ⟨e2, List.mem_cons_of_mem e he2, hi⟩

theorem wwrExtract_mem (items : List RssItem) :
    ∀ (limit : Nat) (r : JobRec), r ∈ wwrExtract limit items →
    ∃ e ∈ items, wwrItem e = some r := by
  induction items with
  | nil => intro limit r h; cases h
  | cons e rest ih =>
    intro limit r h
    simp only [wwrExtract] at h
    cases he : wwrItem e with
    | none =>
      simp only [he] at h
      obtain ⟨e2, he2, hi⟩ := ih limit r h
      exact ⟨e2, List.mem_cons_of_mem e he2, hi⟩
    | some r0 =>
      simp only [he] at h
      by_cases hl : limit ≤ 1
      · rw [if_pos hl] at h
        rcases List.mem_singleton.mp h with rfl
        exact ⟨e, List.mem_cons_self e rest, he⟩
      · rw [if_neg hl] at h
        rcases List.mem_cons.mp h with rfl | hrest
        · exact ⟨e, List.mem_cons_self e rest, he⟩
        · obtain ⟨e2, he2, hi⟩ := ih (limit - 1) r hrest
          exact ⟨e2, List.mem_cons_of_mem e he2, hi⟩

/-- C7 (amended): every record output by the JSON-API adapters (remoteok,
github_jobs) and the RSS adapter (weworkremotely) has a non-empty title and
a non-empty apply_url; the page-scraping rozee adapter guarantees a
non-empty apply_url and drops listings lacking an anchor or a link, but only
checks for the presence of the title ELEMENT, so a listing whose anchor has
empty text yields a record with an empty title (see the counterexample).  In
every adapter a rejected candidate is silently dropped: the remaining batch
is extracted exactly as if the candidate were absent, and nothing raises. -/
theorem C7_per_record_validation :
    (∀ (limit : Nat) (entries : List RokEntry) (r : JobRec),
      r ∈ rokExtract limit entries → r.title ≠ [] ∧ r.apply_url ≠ []) ∧
    (∀ (limit : Nat) (entries : List GhEntry) (r : JobRec),
      r ∈ ghExtract limit entries → r.title ≠ [] ∧ r.apply_url ≠ []) ∧
    (∀ (limit : Nat) (items : List RssItem) (r : JobRec),
      r ∈ wwrExtract limit items → r.title ≠ [] ∧ r.apply_url ≠ []) ∧
    (∀ (cards : List Card) (r : JobRec),
      r ∈ rozeeExtract cards → r.apply_url ≠ []) ∧
    (∀ (limit : Nat) (e : RokEntry) (rest : List RokEntry),
      rokItem e = none → rokExtract limit (e :: rest) = rokExtract limit rest) ∧
    (∀ (limit : Nat) (e : GhEntry) (rest : List GhEntry),
      ghItem e = none → ghExtract limit (e :: rest) = ghExtract limit rest) ∧
    (∀ (limit : Nat) (e : RssItem) (rest : List RssItem),
      wwrItem e = none → wwrExtract limit (e :: rest) = wwrExtract limit rest) ∧
    (∀ (c : Card) (rest : List Card),
      rozeeItem c = none → rozeeExtract (c :: rest) = rozeeExtract rest) := by
  refine ⟨?_, ?_, ?_, ?_, ?_, ?_, ?_, ?_⟩
  · intro limit entries r h
    obtain ⟨e, _, he⟩ := rokExtract_mem entries limit r h
    exact rokItem_fields e r he
  · intro limit entries r h
    obtain ⟨e, _, he⟩ := ghExtract_mem entries limit r h
    exact ghItem_fields e r he
  · intro limit items r h
    obtain ⟨e, _, he⟩ := wwrExtract_mem items limit r h
    obtain ⟨h1, h2, _, _⟩ := wwrItem_fields e r he
    exact ⟨h1, h2⟩
  · intro cards r h
    obtain ⟨c, _, hc⟩ := List.mem_filterMap.mp h
    exact rozeeItem_fields c r hc
  · intro limit e rest h
    simp [rokExtract, h]
  · intro limit e rest h
    simp [ghExtract, h]
  · intro limit e rest h
    simp [wwrExtract, h]
  · intro c rest h
    simp [rozeeExtract, List.filterMap_cons, h]

theorem C7_per_record_validation_witness :
    recC7w.title ≠ [] ∧ recC7w.apply_url ≠ [] :=
  C7_per_record_validation.1 30 [entryC7] recC7w (by decide)

/-- C8 (amended): the RSS adapter splits the combined feed title — on
`" at "` the text before becomes the record's title (and the text after is
parsed as a company), else on `" - "` the text after becomes the title (and
the text before is parsed as a company), else the company stays "Unknown" —
but the parsed company value is DISCARDED: every emitted record carries the
hard-coded company "Unknown", while the record's title is the split's
title. -/
theorem C8_rss_title_company_split :
    (∀ (it : RssItem) (r : JobRec), wwrItem it = some r →
      r.company = "Unknown".data ∧ r.title = (wwrSplit (textOf it.title)).2) ∧
    wwrSplit "Python Dev at Acme".data = ("Acme".data, "Python Dev".data) ∧
    wwrSplit "Acme - Python Dev".data = ("Acme".data, "Python Dev".data) ∧
    wwrSplit "Python Dev".data = ("Unknown".data, "Python Dev".data) := by
  refine ⟨?_, by decide, by decide, by decide⟩
  intro it r h
  obtain ⟨_, _, h3, h4⟩ := wwrItem_fields it r h
  exact ⟨h3, h4⟩

theorem C8_rss_title_company_split_witness :
    recC8w.company = "Unknown".data ∧
    recC8w.title = (wwrSplit (textOf itemC8w.title)).2 :=
  C8_rss_title_company_split.1 itemC8w recC8w (by decide)

end JobPulse
